import Mathlib

/-!
Verification of the proxy-filter metrics reverse proxy
(go/internal/pkg/server/server.go and go/cmd/main.go).

The development shallowly embeds the relevant parts of the Go source:

* the binary wire codec used by MetricsProtobufFilter, following the
  richardartoul/molecule library the handler drives (MessageEach,
  Value.AsBytesSafe / AsStringSafe, ProtoStream.Bytes, and the underlying
  gogo-style varint and field decoding);
* a JSON value type with a textual parser and the slice of the
  datadog.MetricsPayload / datadog.Series struct (de)serialization the
  MetricsFilter handler depends on (unknown object keys are discarded by
  Go struct decoding, null optional fields decode to nil pointers and are
  omitted on re-encoding);
* the two filtering handlers MetricsFilter and MetricsProtobufFilter and
  the statsd drop-count emission logDropCount;
* the proxyRequest forwarder: header copying and status passthrough, with
  outbound request construction (http.NewRequestWithContext, an external
  call whose success depends on url.Parse) abstracted as a parameter.

Go strings are byte strings, so metric names, header names and values and
the configured filter are modelled as lists of byte values; Go's
strings.HasPrefix is List.isPrefixOf on those bytes.
-/

namespace ProxyFilter

/-- Byte strings (Go strings and byte slices): lists of byte values. -/
abbrev Bytes := List Nat

/-- Convenience for writing ASCII literals in examples: each character of
an ASCII string becomes one byte. -/
def ascii (s : String) : Bytes := s.data.map Char.toNat

/-! ## Binary wire format (molecule codec as driven by server.go)

Field-number constants from server.go: the top-level series field and the
nested metric-name field of the agent payload schema. -/

def metricSeries : Nat := 1

def metricSeriesMetricName : Nat := 2

/-- Varint decoding, mirroring the gogo-protobuf loop used by the molecule
codec: up to ten bytes of seven payload bits each are OR-ed into a 64-bit
accumulator (bits beyond 63 are truncated by the uint64 shift); a
continuation bit on the tenth byte is an overflow error, and running out
of input is an EOF error.  Returns the value and the remaining bytes. -/
def decodeVarintLoop : Bytes → Nat → Nat → Except String (Nat × Bytes)
  | [], _, _ => .error "unexpected EOF"
  | b :: rest, shift, acc =>
    let acc' := acc ||| ((b % 128) * 2 ^ shift) % 2 ^ 64
    if b % 256 < 128 then .ok (acc', rest)
    else if shift + 7 < 64 then decodeVarintLoop rest (shift + 7) acc'
    else .error "integer overflow"

def decodeVarint (bs : Bytes) : Except String (Nat × Bytes) :=
  decodeVarintLoop bs 0 0

/-- decoded protobuf value, mirroring molecule.Value: the wire type, the
numeric value (set for varint and fixed-width fields) and the payload
bytes (set only for length-delimited fields; nil, here `[]`, otherwise). -/
structure PBValue where
  wireType : Nat
  number : Nat
  bytes : Bytes
  deriving DecidableEq, Repr

/-- Little-endian fixed-width read of `n` bytes (fixed32 / fixed64). -/
def readFixedLE : Nat → Bytes → Except String (Nat × Bytes)
  | 0, bs => .ok (0, bs)
  | n + 1, [] => let _ := n; .error "unexpected EOF"
  | n + 1, b :: rest =>
    match readFixedLE n rest with
    | .error e => .error e
    | .ok (v, r) => .ok (b % 256 + v * 256, r)

/-- Decode one field: a tag varint giving field number and wire type, then
the value according to the wire type, exactly as molecule's MessageEach
does (group wire types and unknown wire types are errors, a
length-delimited field longer than the remaining buffer is an error). -/
def parseField (bs : Bytes) : Except String ((Nat × PBValue) × Bytes) :=
  match decodeVarint bs with
  | .error e => .error e
  | .ok (tag, rest) =>
    let fieldNum := tag / 8
    let wt := tag % 8
    if wt = 0 then
      match decodeVarint rest with
      | .error e => .error e
      | .ok (n, r) => .ok ((fieldNum, ⟨0, n, []⟩), r)
    else if wt = 1 then
      match readFixedLE 8 rest with
      | .error e => .error e
      | .ok (n, r) => .ok ((fieldNum, ⟨1, n, []⟩), r)
    else if wt = 5 then
      match readFixedLE 4 rest with
      | .error e => .error e
      | .ok (n, r) => .ok ((fieldNum, ⟨5, n, []⟩), r)
    else if wt = 2 then
      match decodeVarint rest with
      | .error e => .error e
      | .ok (len, r) =>
        if len ≤ r.length then .ok ((fieldNum, ⟨2, 0, r.take len⟩), r.drop len)
        else .error "unexpected EOF"
    else .error "unsupported wire type"

theorem decodeVarintLoop_consumes (bs : Bytes) (shift acc : Nat) (v : Nat) (rest : Bytes)
    (h : decodeVarintLoop bs shift acc = .ok (v, rest)) : rest.length < bs.length := by
  induction bs generalizing shift acc v rest with
  | nil => simp [decodeVarintLoop] at h
  | cons b tl ih =>
    simp only [decodeVarintLoop] at h
    split at h
    · cases h
      simp
    · split at h
      · have := ih _ _ _ _ h
        simp only [List.length_cons]
        omega
      · cases h

theorem decodeVarint_consumes (bs : Bytes) (v : Nat) (rest : Bytes)
    (h : decodeVarint bs = .ok (v, rest)) : rest.length < bs.length :=
  decodeVarintLoop_consumes bs 0 0 v rest h

theorem readFixedLE_consumes (n : Nat) (bs : Bytes) (v : Nat) (rest : Bytes)
    (h : readFixedLE n bs = .ok (v, rest)) : rest.length ≤ bs.length := by
  induction n generalizing bs v rest with
  | zero => simp only [readFixedLE] at h; cases h; simp
  | succ n ih =>
    match bs with
    | [] => simp [readFixedLE] at h
    | b :: tl =>
      simp only [readFixedLE] at h
      split at h
      · cases h
      · rename_i v' r' heq
        cases h
        have := ih _ _ _ heq
        simp only [List.length_cons]
        omega

theorem parseField_consumes (bs : Bytes) (fv : Nat × PBValue) (rest : Bytes)
    (h : parseField bs = .ok (fv, rest)) : rest.length < bs.length := by
  simp only [parseField] at h
  split at h
  · cases h
  · rename_i tag mid htag
    have hmid := decodeVarint_consumes _ _ _ htag
    split at h
    · split at h
      · cases h
      · rename_i n r hr
        cases h
        have := decodeVarint_consumes _ _ _ hr
        omega
    · split at h
      · split at h
        · cases h
        · rename_i n r hr
          cases h
          have := readFixedLE_consumes _ _ _ _ hr
          omega
      · split at h
        · split at h
          · cases h
          · rename_i n r hr
            cases h
            have := readFixedLE_consumes _ _ _ _ hr
            omega
        · split at h
          · split at h
            · cases h
            · rename_i len r hr
              split at h
              · cases h
                have := decodeVarint_consumes _ _ _ hr
                have : r.length ≤ mid.length := by omega
                simp only [List.length_drop]
                omega
              · cases h
          · cases h

/-- Recursion core of messageFields.  The fuel argument only bounds the
recursion: each step consumes at least one byte (parseField_consumes), so
with fuel above the input length the limit is never reached. -/
def messageFieldsLoop : Nat → Bytes → Except String (List (Nat × PBValue))
  | 0, _ => .error "internal recursion limit"
  | fuel + 1, bs =>
    if bs = [] then .ok []
    else
      match parseField bs with
      | .error e => .error e
      | .ok (fv, rest) =>
        match messageFieldsLoop fuel rest with
        | .error e => .error e
        | .ok tl => .ok (fv :: tl)

/-- Parse every top-level field of a message buffer in one forward pass
(the traversal molecule's MessageEach performs when the callback never
stops early). -/
def messageFields (bs : Bytes) : Except String (List (Nat × PBValue)) :=
  messageFieldsLoop (bs.length + 1) bs

/-- Recursion core of encodeVarint; the fuel bounds the recursion and is
never reached when it exceeds the value being encoded. -/
def encodeVarintLoop : Nat → Nat → Bytes
  | 0, _ => []
  | fuel + 1, n =>
    if n < 128 then [n]
    else (n % 128 + 128) :: encodeVarintLoop fuel (n / 128)

/-- Minimal varint encoding (what molecule's ProtoStream emits for keys
and lengths). -/
def encodeVarint (n : Nat) : Bytes :=
  encodeVarintLoop (n + 1) n

/-- ProtoStream.Bytes: write a field as field number with the
length-delimited wire type (2), a varint length, and the payload bytes.
This is the only write operation server.go uses, for every re-emitted
field regardless of its original wire type. -/
def psBytes (fieldNum : Nat) (payload : Bytes) : Bytes :=
  encodeVarint (fieldNum * 8 + 2) ++ encodeVarint payload.length ++ payload

/-- molecule Value.AsBytesSafe: the payload bytes, an error unless the
wire type is length-delimited. -/
def asBytesSafe (v : PBValue) : Except String Bytes :=
  if v.wireType = 2 then .ok v.bytes else .error "not a bytes value"

/-- molecule Value.AsStringSafe: the payload bytes as a (byte) string, an
error unless the wire type is length-delimited. -/
def asStringSafe (v : PBValue) : Except String Bytes :=
  if v.wireType = 2 then .ok v.bytes else .error "not a string value"

/-- Recursion core of extractMetricName; the fuel only bounds the
recursion and is never reached with fuel above the input length. -/
def extractNameLoop : Nat → Bytes → Except String Bytes
  | 0, _ => .error "internal recursion limit"
  | fuel + 1, bs =>
    if bs = [] then .ok []
    else
      match parseField bs with
      | .error e => .error e
      | .ok (fv, rest) =>
        if fv.1 = metricSeriesMetricName then asStringSafe fv.2
        else extractNameLoop fuel rest

/-- The inner MessageEach pass of MetricsProtobufFilter: walk the nested
fields of a series message; at the first field numbered
metricSeriesMetricName take its value AsStringSafe and stop; if the walk
ends without meeting that field number the metric name keeps its zero
value, the empty string. -/
def extractMetricName (bs : Bytes) : Except String Bytes :=
  extractNameLoop (bs.length + 1) bs

/-- The metric name a series field yields: the value AsBytesSafe, then
the inner name extraction on those bytes. -/
def seriesName (v : PBValue) : Except String Bytes :=
  match asBytesSafe v with
  | .error e => .error e
  | .ok packed => extractMetricName packed

/-- The decision MetricsProtobufFilter takes for one series field: keep
it iff its metric name does not start with the configured filter.  `none`
when the handler would abort with an error instead. -/
def seriesKeep (pre : Bytes) (v : PBValue) : Option Bool :=
  match seriesName v with
  | .error _ => none
  | .ok name => some (!(pre.isPrefixOf name))

/-- The callback body of MetricsProtobufFilter's top-level MessageEach,
iterated over the buffer: series fields are unpacked and either re-written
with ProtoStream.Bytes or counted as dropped; every other field number is
re-written with ProtoStream.Bytes unconditionally.  The fuel argument
only bounds the recursion: each step consumes at least one byte
(parseField_consumes), so with fuel above the input length the limit is
never reached. -/
def protoFilterLoop (pre : Bytes) : Nat → Bytes → Bytes → Int →
    Except String (Bytes × Int)
  | 0, _, _, _ => .error "internal recursion limit"
  | fuel + 1, bs, out, drop =>
    if bs = [] then .ok (out, drop)
    else
      match parseField bs with
      | .error e => .error e
      | .ok (fv, rest) =>
        if fv.1 = metricSeries then
          match asBytesSafe fv.2 with
          | .error e => .error e
          | .ok packed =>
            match extractMetricName packed with
            | .error e => .error e
            | .ok name =>
              if !(pre.isPrefixOf name) then
                protoFilterLoop pre fuel rest (out ++ psBytes fv.1 fv.2.bytes) drop
              else
                protoFilterLoop pre fuel rest out (drop + 1)
        else protoFilterLoop pre fuel rest (out ++ psBytes fv.1 fv.2.bytes) drop

/-- The whole buffer transformation of MetricsProtobufFilter between
reading the request body and re-wrapping the output: filtered output
bytes and the drop count. -/
def protoFilterBody (pre : Bytes) (bs : Bytes) : Except String (Bytes × Int) :=
  protoFilterLoop pre (bs.length + 1) bs [] 0

/-- What the filter emits for one parsed top-level field (under the
well-formedness hypothesis that series fields are inspectable). -/
def fieldEmit (pre : Bytes) (fv : Nat × PBValue) : Bytes :=
  if fv.1 = metricSeries then
    if (seriesKeep pre fv.2).getD true then psBytes fv.1 fv.2.bytes else []
  else psBytes fv.1 fv.2.bytes

/-- Whether one parsed top-level field is counted in the drop count. -/
def fieldDropped (pre : Bytes) (fv : Nat × PBValue) : Bool :=
  fv.1 = metricSeries && (seriesKeep pre fv.2) = some false

/-! ## JSON values and the textual decoder

The MetricsFilter route decodes the request body with encoding/json into
datadog.MetricsPayload.  The model parses the body text into a JSON value
and then binds that value to the payload struct.  Numeric literals are
kept as their source text (the claims under verification never compute
with them); string literals are unescaped to byte strings. -/

inductive Json where
  | null
  | bool (b : Bool)
  | num (lit : Bytes)
  | str (s : Bytes)
  | arr (elems : List Json)
  | obj (fields : List (Bytes × Json))

def isWSByte (b : Nat) : Bool := b = 32 || b = 9 || b = 10 || b = 13

def skipWS (bs : Bytes) : Bytes := bs.dropWhile isWSByte

def isDigitByte (b : Nat) : Bool := 48 ≤ b && b ≤ 57

/-- Hexadecimal digit value of a byte, if it is one. -/
def hexVal (b : Nat) : Option Nat :=
  if 48 ≤ b && b ≤ 57 then some (b - 48)
  else if 97 ≤ b && b ≤ 102 then some (b - 87)
  else if 65 ≤ b && b ≤ 70 then some (b - 55)
  else none

/-- UTF-8 encoding of a Unicode code point. -/
def utf8Encode (c : Nat) : Bytes :=
  if c < 128 then [c]
  else if c < 2048 then [192 + c / 64, 128 + c % 64]
  else if c < 65536 then [224 + c / 4096, 128 + c / 64 % 64, 128 + c % 64]
  else [240 + c / 262144, 128 + c / 4096 % 64, 128 + c / 64 % 64, 128 + c % 64]

/-- Read four hex digits (the payload of a unicode escape). -/
def readHex4 : Bytes → Option (Nat × Bytes)
  | b1 :: b2 :: b3 :: b4 :: rest =>
    match hexVal b1, hexVal b2, hexVal b3, hexVal b4 with
    | some h1, some h2, some h3, some h4 =>
      some (h1 * 4096 + h2 * 256 + h3 * 16 + h4, rest)
    | _, _, _, _ => none
  | _ => none

def highSurrogate (c : Nat) : Bool := 55296 ≤ c && c < 56320

def lowSurrogate (c : Nat) : Bool := 56320 ≤ c && c < 57344

/-- Replacement character U+FFFD as UTF-8, what encoding/json substitutes
for an unpaired surrogate escape. -/
def replacementChar : Bytes := [239, 191, 189]

/-- Decode the body of a JSON string literal after its opening quote:
the unescaped bytes and the input remaining after the closing quote.
Escapes follow encoding/json: the simple escapes, unicode escapes with
surrogate pairs combined and unpaired surrogates replaced by U+FFFD;
unescaped control characters are an error.  The fuel argument only bounds
the recursion; every recursive call consumes at least one input byte, so
with fuel at least the input length the limit is never reached. -/
def parseJStringLoop (fuel : Nat) (bs : Bytes) : Except String (Bytes × Bytes) :=
  match fuel with
  | 0 => .error "internal recursion limit"
  | fuel + 1 =>
  match bs with
  | [] => .error "unexpected end of JSON input"
  | b :: rest =>
    if b = 34 then .ok ([], rest)
    else if b = 92 then
      match rest with
      | [] => .error "unexpected end of JSON input"
      | e :: rest2 =>
        if e = 34 || e = 92 || e = 47 then
          match parseJStringLoop fuel rest2 with
          | .error err => .error err
          | .ok (s, r) => .ok (e :: s, r)
        else if e = 98 || e = 102 || e = 110 || e = 114 || e = 116 then
          let c : Nat :=
            if e = 98 then 8 else if e = 102 then 12
            else if e = 110 then 10 else if e = 114 then 13 else 9
          match parseJStringLoop fuel rest2 with
          | .error err => .error err
          | .ok (s, r) => .ok (c :: s, r)
        else if e = 117 then
          match readHex4 rest2 with
          | none => .error "invalid unicode escape in string literal"
          | some (c, rest3) =>
            if highSurrogate c then
              match rest3 with
              | 92 :: 117 :: tl =>
                match readHex4 tl with
                | some (c2, rest4) =>
                  if lowSurrogate c2 then
                    let combined := 65536 + (c - 55296) * 1024 + (c2 - 56320)
                    match parseJStringLoop fuel rest4 with
                    | .error err => .error err
                    | .ok (s, r) => .ok (utf8Encode combined ++ s, r)
                  else
                    match parseJStringLoop fuel rest3 with
                    | .error err => .error err
                    | .ok (s, r) => .ok (replacementChar ++ s, r)
                | none =>
                  match parseJStringLoop fuel rest3 with
                  | .error err => .error err
                  | .ok (s, r) => .ok (replacementChar ++ s, r)
              | _ =>
                match parseJStringLoop fuel rest3 with
                | .error err => .error err
                | .ok (s, r) => .ok (replacementChar ++ s, r)
            else if lowSurrogate c then
              match parseJStringLoop fuel rest3 with
              | .error err => .error err
              | .ok (s, r) => .ok (replacementChar ++ s, r)
            else
              match parseJStringLoop fuel rest3 with
              | .error err => .error err
              | .ok (s, r) => .ok (utf8Encode c ++ s, r)
        else .error "invalid escape in string literal"
    else if b < 32 then .error "invalid control character in string literal"
    else
      match parseJStringLoop fuel rest with
      | .error err => .error err
      | .ok (s, r) => .ok (b :: s, r)

/-- Consume a JSON number literal (RFC 8259 grammar, as encoding/json
checks it): optional minus, an integer part with no leading zero, an
optional fraction, an optional exponent.  Returns the literal text and
the remaining input. -/
def parseNumber (bs : Bytes) : Except String (Bytes × Bytes) :=
  let core := fun (after : Bytes) =>
    match after with
    | [] => Except.error "invalid number literal"
    | d :: tl =>
      if d = 48 then Except.ok ([d], tl)
      else if isDigitByte d then
        Except.ok (d :: tl.takeWhile isDigitByte, tl.dropWhile isDigitByte)
      else Except.error "invalid number literal"
  let frac := fun (after : Bytes) =>
    match after with
    | 46 :: tl =>
      match tl with
      | [] => Except.error "invalid number literal"
      | d :: _ =>
        if isDigitByte d then
          Except.ok (46 :: tl.takeWhile isDigitByte, tl.dropWhile isDigitByte)
        else Except.error "invalid number literal"
    | _ => Except.ok ([], after)
  let expPart := fun (after : Bytes) =>
    match after with
    | e :: tl =>
      if e = 101 || e = 69 then
        let signAndRest :=
          match tl with
          | s :: tl2 => if s = 43 || s = 45 then ([s], tl2) else ([], tl)
          | [] => ([], tl)
        match signAndRest.2 with
        | [] => Except.error "invalid number literal"
        | d :: _ =>
          if isDigitByte d then
            Except.ok (e :: signAndRest.1 ++ signAndRest.2.takeWhile isDigitByte,
              signAndRest.2.dropWhile isDigitByte)
          else Except.error "invalid number literal"
      else Except.ok ([], after)
    | [] => Except.ok ([], after)
  let startAndRest :=
    match bs with
    | 45 :: tl => ([45], tl)
    | _ => (([] : Bytes), bs)
  match core startAndRest.2 with
  | .error e => .error e
  | .ok (intPart, r1) =>
    match frac r1 with
    | .error e => .error e
    | .ok (fracPart, r2) =>
      match expPart r2 with
      | .error e => .error e
      | .ok (ePart, r3) =>
        .ok (startAndRest.1 ++ intPart ++ fracPart ++ ePart, r3)

mutual

/-- Parse one JSON value.  The fuel bounds the recursion depth; every two
recursive steps consume at least one input byte, so the top-level caller
supplies more fuel than twice the input length and the limit is never
reached. -/
def parseValue (fuel : Nat) (bs : Bytes) : Except String (Json × Bytes) :=
  match fuel with
  | 0 => .error "internal recursion limit"
  | fuel + 1 =>
    match skipWS bs with
    | [] => .error "unexpected end of JSON input"
    | b :: rest =>
      if b = 110 then
        match rest with
        | 117 :: 108 :: 108 :: r => .ok (.null, r)
        | _ => .error "invalid literal"
      else if b = 116 then
        match rest with
        | 114 :: 117 :: 101 :: r => .ok (.bool true, r)
        | _ => .error "invalid literal"
      else if b = 102 then
        match rest with
        | 97 :: 108 :: 115 :: 101 :: r => .ok (.bool false, r)
        | _ => .error "invalid literal"
      else if b = 34 then
        match parseJStringLoop fuel rest with
        | .error e => .error e
        | .ok (s, r) => .ok (.str s, r)
      else if b = 91 then
        match skipWS rest with
        | 93 :: r => .ok (.arr [], r)
        | inner =>
          match parseElems fuel inner with
          | .error e => .error e
          | .ok (xs, r) => .ok (.arr xs, r)
      else if b = 123 then
        match skipWS rest with
        | 125 :: r => .ok (.obj [], r)
        | inner =>
          match parseMembers fuel inner with
          | .error e => .error e
          | .ok (fs, r) => .ok (.obj fs, r)
      else if b = 45 || isDigitByte b then
        match parseNumber (b :: rest) with
        | .error e => .error e
        | .ok (lit, r) => .ok (.num lit, r)
      else .error "invalid character looking for value"

/-- Parse the comma-separated elements of a non-empty array, up to and
including the closing bracket. -/
def parseElems (fuel : Nat) (bs : Bytes) : Except String (List Json × Bytes) :=
  match fuel with
  | 0 => .error "internal recursion limit"
  | fuel + 1 =>
    match parseValue fuel bs with
    | .error e => .error e
    | .ok (v, r) =>
      match skipWS r with
      | 44 :: r2 =>
        match parseElems fuel r2 with
        | .error e => .error e
        | .ok (xs, r3) => .ok (v :: xs, r3)
      | 93 :: r2 => .ok ([v], r2)
      | _ => .error "invalid character after array element"

/-- Parse the comma-separated members of a non-empty object, up to and
including the closing brace. -/
def parseMembers (fuel : Nat) (bs : Bytes) :
    Except String (List (Bytes × Json) × Bytes) :=
  match fuel with
  | 0 => .error "internal recursion limit"
  | fuel + 1 =>
    match skipWS bs with
    | 34 :: r0 =>
      match parseJStringLoop fuel r0 with
      | .error e => .error e
      | .ok (k, r1) =>
        match skipWS r1 with
        | 58 :: r2 =>
          match parseValue fuel r2 with
          | .error e => .error e
          | .ok (v, r3) =>
            match skipWS r3 with
            | 44 :: r4 =>
              match parseMembers fuel r4 with
              | .error e => .error e
              | .ok (fs, r5) => .ok ((k, v) :: fs, r5)
            | 125 :: r4 => .ok ([(k, v)], r4)
            | _ => .error "invalid character after object member"
        | _ => .error "invalid character after object key"
    | _ => .error "invalid character looking for object key"

end

/-- Decode one JSON value from the body bytes, the way Decode on a
json.Decoder does: leading whitespace is skipped, exactly one value is
read, and anything after that value is left unread and ignored. -/
def jsonDecodeOne (bs : Bytes) : Except String Json :=
  match parseValue (2 * bs.length + 8) bs with
  | .error e => .error e
  | .ok (v, _) => .ok v

/-! ## datadog.MetricsPayload binding

MetricsFilter decodes into the datadog.MetricsPayload struct: an object
with a required "series" array whose elements decode into the
datadog.Series struct.  Go struct decoding binds the schema's keys and
silently discards every other key; a JSON null bound to an optional
(pointer-typed) field leaves the pointer nil, which the struct's
serializer then omits.  The inspected field is the required string
"metric"; the other schema fields (host, interval, points, tags, type)
are carried as the JSON values bound to them. -/

structure Series where
  metric : Bytes
  host : Option Json
  interval : Option Json
  points : Option Json
  tags : Option Json
  stype : Option Json

structure MetricsPayload where
  series : List Series

/-- Lookup of a key in a decoded object: the last occurrence wins, as it
does when encoding/json assigns struct fields in textual order. -/
def objLookupList (fields : List (Bytes × Json)) (k : Bytes) : Option Json :=
  ((fields.filter (fun f => f.1 = k)).getLast?).map Prod.snd

/-- Lookup of a key in an object value (none on any other value). -/
def objLookup (j : Json) (k : Bytes) : Option Json :=
  match j with
  | .obj fields => objLookupList fields k
  | _ => none

/-- An optional struct field: absent or JSON null both leave the Go
pointer nil. -/
def optField (fields : List (Bytes × Json)) (k : Bytes) : Option Json :=
  match objLookupList fields k with
  | none => none
  | some .null => none
  | some v => some v

/-- Bind one series element, as unmarshalling into datadog.Series: the
value must be an object carrying a string "metric"; the remaining schema
keys are optional; every key outside the schema is discarded. -/
def decodeSeriesElem (j : Json) : Except String Series :=
  match j with
  | .obj fields =>
    match objLookupList fields (ascii "metric") with
    | some (.str m) =>
      .ok ⟨m, optField fields (ascii "host"), optField fields (ascii "interval"),
        optField fields (ascii "points"), optField fields (ascii "tags"),
        optField fields (ascii "type")⟩
    | some _ => .error "metric field of unexpected type"
    | none => .error "required field metric missing"
  | _ => .error "cannot unmarshal value into Series"

def decodeSeriesList : List Json → Except String (List Series)
  | [] => .ok []
  | j :: tl =>
    match decodeSeriesElem j with
    | .error e => .error e
    | .ok s =>
      match decodeSeriesList tl with
      | .error e => .error e
      | .ok ss => .ok (s :: ss)

/-- Bind the payload, as unmarshalling into datadog.MetricsPayload: an
object with a required "series" array. -/
def decodeMetricsPayload (j : Json) : Except String MetricsPayload :=
  match j with
  | .obj fields =>
    match objLookupList fields (ascii "series") with
    | some (.arr elems) =>
      match decodeSeriesList elems with
      | .error e => .error e
      | .ok ss => .ok ⟨ss⟩
    | some _ => .error "series field of unexpected type"
    | none => .error "required field series missing"
  | _ => .error "cannot unmarshal value into MetricsPayload"

/-- The request body decode of MetricsFilter: JSON text to payload
struct. -/
def decodeMetricsPayloadBytes (bs : Bytes) : Except String MetricsPayload :=
  match jsonDecodeOne bs with
  | .error e => .error e
  | .ok j => decodeMetricsPayload j

def optEntry (k : String) (v : Option Json) : List (Bytes × Json) :=
  match v with
  | none => []
  | some x => [(ascii k, x)]

/-- Serialize one series record: the schema keys that are set, in the
alphabetical key order the Go struct serializer produces. -/
def encodeSeries (s : Series) : Json :=
  .obj (optEntry "host" s.host ++ optEntry "interval" s.interval ++
    [(ascii "metric", .str s.metric)] ++ optEntry "points" s.points ++
    optEntry "tags" s.tags ++ optEntry "type" s.stype)

def encodeMetricsPayload (p : MetricsPayload) : Json :=
  .obj [(ascii "series", .arr (p.series.map encodeSeries))]

/-- Escaping for serialized string literals: quote, backslash and control
characters. -/
def escapeByte (b : Nat) : Bytes :=
  if b = 34 then [92, 34]
  else if b = 92 then [92, 92]
  else if b < 32 then
    let hi := b / 16
    let lo := b % 16
    [92, 117, 48, 48, if hi < 10 then 48 + hi else 87 + hi,
      if lo < 10 then 48 + lo else 87 + lo]
  else [b]

mutual

/-- Serialize a JSON value back to text (the re-encoding step before the
filtered body is forwarded). -/
def jsonSerialize : Json → Bytes
  | .null => [110, 117, 108, 108]
  | .bool true => [116, 114, 117, 101]
  | .bool false => [102, 97, 108, 115, 101]
  | .num lit => lit
  | .str s => 34 :: (s.map escapeByte).flatten ++ [34]
  | .arr xs => 91 :: serializeElems xs ++ [93]
  | .obj fs => 123 :: serializeMembers fs ++ [125]

def serializeElems : List Json → Bytes
  | [] => []
  | [x] => jsonSerialize x
  | x :: y :: tl => jsonSerialize x ++ [44] ++ serializeElems (y :: tl)

def serializeMembers : List (Bytes × Json) → Bytes
  | [] => []
  | [f] => 34 :: (f.1.map escapeByte).flatten ++ [34, 58] ++ jsonSerialize f.2
  | f :: g :: tl =>
    34 :: (f.1.map escapeByte).flatten ++ [34, 58] ++ jsonSerialize f.2 ++ [44] ++
      serializeMembers (g :: tl)

end

/-! ## Handler configuration and the two filtering routes -/

/-- server.Config: the backend base endpoint, the metric-name filter (the
empty string disables filtering) and the statsd tags. -/
structure Config where
  MetricsPrefixFilter : Bytes
  Tags : List String

/-- A compression codec as the handlers use one: a decoder applied to the
whole request body when reading and an encoder applied to the rewritten
body when writing.  gzip and zlib are external libraries, so the handlers
are parameterized over the pair of codecs; decoder failure stands for a
malformed compressed stream. -/
structure Codec where
  dec : Bytes → Except String Bytes
  enc : Bytes → Bytes

/-- The identity codec, for requests carrying no recognized
Content-Encoding. -/
def idCodec : Codec := ⟨fun bs => .ok bs, fun bs => bs⟩

/-- The slice of an inbound request the filtering handlers look at: the
Content-Encoding header value and the body bytes. -/
structure FilterRequest where
  contentEncoding : Bytes
  body : Bytes

/-- One Count call on the statsd client. -/
structure SinkCall where
  name : String
  value : Int
  tags : List String
  rate : Nat
  deriving DecidableEq, Repr

def metricsFilteredCountName : String := "proxy_filter.filtered_metrics.count"

/-- What a filtering handler does with the inbound request: answer the
caller directly with a status and an error text (the backend is then
never contacted), or hand a body to proxyRequest for forwarding. -/
inductive Outcome where
  | respond (status : Nat) (body : String)
  | forward (body : Bytes)
  deriving DecidableEq, Repr

structure HandlerResult where
  outcome : Outcome
  sinkCalls : List SinkCall
  deriving DecidableEq, Repr

/-- getReaderFromRequest: pick the decompressor by the Content-Encoding
header; gzip and deflate are recognized, anything else reads the body
unchanged. -/
def getReaderFromRequest (gz zl : Codec) (r : FilterRequest) : Except String Bytes :=
  if r.contentEncoding = ascii "gzip" then gz.dec r.body
  else if r.contentEncoding = ascii "deflate" then zl.dec r.body
  else .ok r.body

/-- getWriterForRequest plus the copy-and-close that follows it: the
rewritten payload is re-compressed with the codec matching the same
header, or passed through unchanged. -/
def getWriterOutput (gz zl : Codec) (r : FilterRequest) (out : Bytes) : Bytes :=
  if r.contentEncoding = ascii "gzip" then gz.enc out
  else if r.contentEncoding = ascii "deflate" then zl.enc out
  else out

/-- logDropCount: one Count call on the statsd client with the fixed
metric name, the request's drop count, the configured tags and sample
rate 1.  The client's return value is discarded (the Go code assigns it
to the blank identifier), so the handler result never depends on it. -/
def logDropCount (sink : SinkCall → Bool) (cfg : Config) (drop : Int) : List SinkCall :=
  let call : SinkCall := ⟨metricsFilteredCountName, drop, cfg.Tags, 1⟩
  let _ := sink call
  [call]

/-- MetricsFilter, the JSON filtering route: passthrough when no filter
is configured; otherwise decompress, decode the payload, keep the series
whose metric does not start with the filter, emit the drop count, and
forward the re-encoded, re-compressed payload.  Decompression and decode
failures answer 500 with the error text and never reach the backend. -/
def MetricsFilter (gz zl : Codec) (sink : SinkCall → Bool) (cfg : Config)
    (r : FilterRequest) : HandlerResult :=
  if cfg.MetricsPrefixFilter = [] then ⟨.forward r.body, []⟩
  else
    match getReaderFromRequest gz zl r with
    | .error e => ⟨.respond 500 e, []⟩
    | .ok bs =>
      match decodeMetricsPayloadBytes bs with
      | .error e => ⟨.respond 500 e, []⟩
      | .ok payload =>
        let filteredSeries :=
          payload.series.filter (fun s => !(cfg.MetricsPrefixFilter.isPrefixOf s.metric))
        let dropCount : Int := (payload.series.length : Int) - (filteredSeries.length : Int)
        let calls := logDropCount sink cfg dropCount
        let out := jsonSerialize (encodeMetricsPayload ⟨filteredSeries⟩)
        ⟨.forward (getWriterOutput gz zl r out), calls⟩

/-- MetricsProtobufFilter, the binary filtering route: passthrough when
no filter is configured; otherwise decompress and buffer the body, run
the single-pass field filter, emit the drop count, and forward the
re-compressed output.  Decompression and wire-format failures answer 500
with the error text and never reach the backend. -/
def MetricsProtobufFilter (gz zl : Codec) (sink : SinkCall → Bool) (cfg : Config)
    (r : FilterRequest) : HandlerResult :=
  if cfg.MetricsPrefixFilter = [] then ⟨.forward r.body, []⟩
  else
    match getReaderFromRequest gz zl r with
    | .error e => ⟨.respond 500 e, []⟩
    | .ok all =>
      match protoFilterBody cfg.MetricsPrefixFilter all with
      | .error e => ⟨.respond 500 e, []⟩
      | .ok (output, dropCount) =>
        let calls := logDropCount sink cfg dropCount
        ⟨.forward (getWriterOutput gz zl r output), calls⟩

/-! ## The proxy forwarder

proxyRequest builds the outbound request, copies the inbound headers onto
it, performs the round trip, copies the response headers back and relays
the status code and body.  Header maps are modelled as association lists
from canonical header names to their value lists (Go's map iteration
order is arbitrary; nothing below depends on it).  Outbound request
construction (http.NewRequestWithContext) is an external call whose
result is passed in. -/

structure Headers where
  entries : List (Bytes × List Bytes)
  deriving DecidableEq, Repr

/-- http.Header.Get: the first value set for the key, or the empty string
when the key is absent or has no values. -/
def headerGet (h : Headers) (k : Bytes) : Bytes :=
  ((h.entries.find? (fun e => e.1 = k)).map (fun e => e.2.headD [])).getD []

/-- http.Header.Add: append the value to the key's list. -/
def headerAdd (h : Headers) (k : Bytes) (v : Bytes) : Headers :=
  if h.entries.any (fun e => e.1 = k) then
    ⟨h.entries.map (fun e => if e.1 = k then (e.1, e.2 ++ [v]) else e)⟩
  else ⟨h.entries ++ [(k, [v])]⟩

/-- The header-copying loop of proxyRequest: for every key of the source
map, Add the result of Get — a single Add of the first value per name —
into the (initially empty) destination. -/
def copyHeaders (src : Headers) : Headers :=
  src.entries.foldl (fun acc e => headerAdd acc e.1 (headerGet src e.1)) ⟨[]⟩

/-- The outbound request as far as the model observes it: its headers. -/
structure OutboundRequest where
  headers : Headers
  deriving DecidableEq, Repr

structure InboundRequest where
  headers : Headers
  deriving DecidableEq, Repr

structure UpstreamResponse where
  status : Nat
  headers : Headers
  body : Bytes
  deriving DecidableEq, Repr

/-- What the caller of the proxy observes. -/
inductive ProxyOutcome where
  | panicked
  | respond (status : Nat)
  | relay (status : Nat) (headers : Headers) (body : Bytes)
  deriving DecidableEq, Repr

/-- The headers proxyRequest puts on the outbound request (the loop of
Header.Add over the inbound keys). -/
def outboundRequest (base : OutboundRequest) (r : InboundRequest) : OutboundRequest :=
  { base with headers := copyHeaders r.headers }

/-- proxyRequest, lines 104-145 of server.go.  `construct` is the result
of http.NewRequestWithContext for BaseEndpoint + path.  The Go code
assigns req.URL.RawQuery on the line before it checks the construction
error, so when construction fails req is nil and that assignment
dereferences a nil pointer: the handler panics and the subsequent
500-writing branch is unreachable.  On a transport error the caller gets
502; on success the response headers are copied back the same first-value
way and the upstream status code is written unchanged. -/
def proxyRequest (construct : Except String OutboundRequest)
    (send : OutboundRequest → Except String UpstreamResponse)
    (r : InboundRequest) : ProxyOutcome :=
  match construct with
  | .error _ => .panicked
  | .ok base =>
    let req := outboundRequest base r
    match send req with
    | .error _ => .respond 502
    | .ok resp => .relay resp.status (copyHeaders resp.headers) resp.body

/-! ## Helper lemmas: the field filter as a function of the parsed field
list -/

theorem messageFieldsLoop_fuel (fuel1 : Nat) :
    ∀ (fuel2 : Nat) (bs : Bytes), bs.length < fuel1 → bs.length < fuel2 →
      messageFieldsLoop fuel1 bs = messageFieldsLoop fuel2 bs := by
  induction fuel1 with
  | zero => intro fuel2 bs h1; omega
  | succ f ih =>
    intro fuel2 bs h1 h2
    match fuel2 with
    | 0 => omega
    | g + 1 =>
      simp only [messageFieldsLoop]
      by_cases hbs : bs = []
      · simp [hbs]
      · simp only [hbs, if_false]
        cases hp : parseField bs with
        | error e => rfl
        | ok fvrest =>
          obtain ⟨fv, rest⟩ := fvrest
          have hc := parseField_consumes _ _ _ hp
          simp only [ih g rest (by omega) (by omega)]

theorem messageFields_inv (bs : Bytes) (fields : List (Nat × PBValue))
    (h : messageFields bs = .ok fields) :
    (bs = [] ∧ fields = []) ∨
      ∃ fv rest tl, parseField bs = .ok (fv, rest) ∧
        messageFields rest = .ok tl ∧ fields = fv :: tl := by
  unfold messageFields at h
  simp only [messageFieldsLoop] at h
  by_cases hbs : bs = []
  · left
    simp only [hbs, if_true, Except.ok.injEq, if_pos] at h
    exact ⟨hbs, h.symm⟩
  · right
    simp only [hbs, if_false] at h
    cases hp : parseField bs with
    | error e => simp [hp] at h
    | ok fvrest =>
      obtain ⟨fv, rest⟩ := fvrest
      have hc := parseField_consumes _ _ _ hp
      simp only [hp] at h
      rw [messageFieldsLoop_fuel bs.length (rest.length + 1) rest (by omega) (by omega)] at h
      cases hm : messageFieldsLoop (rest.length + 1) rest with
      | error e => simp [hm] at h
      | ok tl =>
        simp only [hm, Except.ok.injEq] at h
        exact ⟨fv, rest, tl, rfl, hm, h.symm⟩

/-- A series field with an inspectable name: how the handler unpacks it. -/
theorem seriesName_ok_elim (v : PBValue) (name : Bytes)
    (hn : seriesName v = .ok name) :
    ∃ packed, asBytesSafe v = .ok packed ∧ extractMetricName packed = .ok name := by
  unfold seriesName at hn
  match hab : asBytesSafe v with
  | .error e => rw [hab] at hn; cases hn
  | .ok packed => rw [hab] at hn; exact ⟨packed, rfl, hn⟩

theorem seriesKeep_isSome_elim (pre : Bytes) (v : PBValue)
    (h : (seriesKeep pre v).isSome = true) :
    ∃ name, seriesName v = .ok name ∧ seriesKeep pre v = some (!(pre.isPrefixOf name)) := by
  unfold seriesKeep at h ⊢
  match hn : seriesName v with
  | .error e => rw [hn] at h; cases h
  | .ok name => exact ⟨name, rfl, rfl⟩

/-- The single forward pass of MetricsProtobufFilter, characterized over
the parsed field list: the output is the concatenation, in original field
order, of what the filter emits for each field, and the drop count is the
number of dropped fields. -/
theorem protoFilterLoop_eq (pre : Bytes) (fuel : Nat) :
    ∀ (bs : Bytes), bs.length < fuel →
    ∀ (fields : List (Nat × PBValue)), messageFields bs = .ok fields →
      (∀ fv ∈ fields, fv.1 = metricSeries → (seriesKeep pre fv.2).isSome) →
    ∀ (out : Bytes) (drop : Int),
      protoFilterLoop pre fuel bs out drop =
        .ok (out ++ (fields.map (fieldEmit pre)).flatten,
          drop + (fields.countP (fieldDropped pre) : Int)) := by
  induction fuel with
  | zero => intro bs h1; omega
  | succ f ih =>
    intro bs h1 fields hp hwf out drop
    rcases messageFields_inv bs fields hp with ⟨hbs, hfs⟩ | ⟨fv, rest, tl, hpf, hrest, hfs⟩
    · subst hbs; subst hfs
      simp [protoFilterLoop]
    · subst hfs
      have hbs : bs ≠ [] := by
        intro hc
        subst hc
        simp [parseField, decodeVarint, decodeVarintLoop] at hpf
      have hc := parseField_consumes _ _ _ hpf
      simp only [protoFilterLoop, hbs, if_false, hpf]
      have hwtl : ∀ fv2 ∈ tl, fv2.1 = metricSeries → (seriesKeep pre fv2.2).isSome := by
        intro fv2 hm hms
        exact hwf fv2 (List.mem_cons_of_mem _ hm) hms
      by_cases hser : fv.1 = metricSeries
      · obtain ⟨name, hn, hk⟩ :=
          seriesKeep_isSome_elim pre fv.2 (hwf fv (List.mem_cons_self _ _) hser)
        obtain ⟨packed, hab, hex⟩ := seriesName_ok_elim fv.2 name hn
        simp only [hser, if_true, hab, hex]
        by_cases hkeep : pre.isPrefixOf name
        · simp only [hkeep, Bool.not_true, Bool.false_eq_true, if_false]
          rw [ih rest (by omega) tl hrest hwtl out (drop + 1)]
          have hemit : fieldEmit pre fv = [] := by
            simp [fieldEmit, hser, hk, hkeep]
          have hdropped : fieldDropped pre fv = true := by
            simp [fieldDropped, hser, hk, hkeep]
          simp only [List.map_cons, List.flatten_cons, hemit, List.nil_append,
            List.countP_cons, hdropped]
          rw [Except.ok.injEq, Prod.mk.injEq]
          constructor
          · rfl
          · push_cast
            ring
        · simp only [hkeep, Bool.not_false, if_true]
          rw [ih rest (by omega) tl hrest hwtl (out ++ psBytes metricSeries fv.2.bytes) drop]
          have hemit : fieldEmit pre fv = psBytes fv.1 fv.2.bytes := by
            simp [fieldEmit, hser, hk, hkeep]
          have hdropped : fieldDropped pre fv = false := by
            simp [fieldDropped, hser, hk, hkeep]
          simp only [List.map_cons, List.flatten_cons, hemit, List.countP_cons, hdropped]
          rw [Except.ok.injEq, Prod.mk.injEq]
          constructor
          · simp [List.append_assoc, hser]
          · simp
      · simp only [hser, if_false]
        rw [ih rest (by omega) tl hrest hwtl (out ++ psBytes fv.1 fv.2.bytes) drop]
        have hemit : fieldEmit pre fv = psBytes fv.1 fv.2.bytes := by
          simp [fieldEmit, hser]
        have hdropped : fieldDropped pre fv = false := by
          simp [fieldDropped, hser]
        simp only [List.map_cons, List.flatten_cons, hemit, List.countP_cons, hdropped]
        rw [Except.ok.injEq, Prod.mk.injEq]
        constructor
        · simp [List.append_assoc]
        · simp

/-- protoFilterBody over a buffer whose parse and per-series unpacking
succeed: emitted fields in order, dropped fields counted. -/
theorem protoFilterBody_eq (pre : Bytes) (bs : Bytes) (fields : List (Nat × PBValue))
    (hp : messageFields bs = .ok fields)
    (hwf : ∀ fv ∈ fields, fv.1 = metricSeries → (seriesKeep pre fv.2).isSome) :
    protoFilterBody pre bs =
      .ok ((fields.map (fieldEmit pre)).flatten,
        (fields.countP (fieldDropped pre) : Int)) := by
  unfold protoFilterBody
  rw [protoFilterLoop_eq pre (bs.length + 1) bs (by omega) fields hp hwf [] 0]
  simp

/-- A parsed field carries payload bytes only when it is
length-delimited; molecule leaves Value.Bytes nil for the other wire
types. -/
theorem parseField_wt (bs : Bytes) (fv : Nat × PBValue) (rest : Bytes)
    (h : parseField bs = .ok (fv, rest)) :
    fv.2.wireType = 2 ∨ fv.2.bytes = [] := by
  simp only [parseField] at h
  split at h
  · cases h
  · split at h
    · split at h
      · cases h
      · cases h; right; rfl
    · split at h
      · split at h
        · cases h
        · cases h; right; rfl
      · split at h
        · split at h
          · cases h
          · cases h; right; rfl
        · split at h
          · split at h
            · cases h
            · split at h
              · cases h; left; rfl
              · cases h
          · cases h

theorem messageFields_wtInv (fields : List (Nat × PBValue)) :
    ∀ (bs : Bytes), messageFields bs = .ok fields →
      ∀ fv ∈ fields, fv.2.wireType = 2 ∨ fv.2.bytes = [] := by
  induction fields with
  | nil => intro bs _ fv hm; cases hm
  | cons hd tl ih =>
    intro bs h fv hm
    rcases messageFields_inv bs (hd :: tl) h with ⟨_, hfs⟩ | ⟨fv2, rest, tl2, hpf, hrest, hfs⟩
    · cases hfs
    · cases hfs
      cases hm with
      | head => exact parseField_wt bs _ rest hpf
      | tail _ hm2 => exact ih rest hrest fv hm2

/-- The filtering route on a well-formed buffer, at the handler level:
forwarded output and the one drop-count sink call. -/
theorem MetricsProtobufFilter_ok (gz zl : Codec) (sink : SinkCall → Bool)
    (cfg : Config) (r : FilterRequest) (all : Bytes) (fields : List (Nat × PBValue))
    (hpre : cfg.MetricsPrefixFilter ≠ [])
    (hrd : getReaderFromRequest gz zl r = .ok all)
    (hp : messageFields all = .ok fields)
    (hwf : ∀ fv ∈ fields, fv.1 = metricSeries →
      (seriesKeep cfg.MetricsPrefixFilter fv.2).isSome) :
    MetricsProtobufFilter gz zl sink cfg r =
      ⟨.forward (getWriterOutput gz zl r
          ((fields.map (fieldEmit cfg.MetricsPrefixFilter)).flatten)),
        [⟨metricsFilteredCountName,
          (fields.countP (fieldDropped cfg.MetricsPrefixFilter) : Int), cfg.Tags, 1⟩]⟩ := by
  unfold MetricsProtobufFilter
  rw [if_neg hpre]
  simp only [hrd, protoFilterBody_eq cfg.MetricsPrefixFilter all fields hp hwf, logDropCount]

/-- C2: for a well-formed binary payload and a non-empty filter, the
route is a single forward pass over the top-level fields: each series
field (number 1) whose nested metric name (number 2) starts with the
filter is left out of the output and counted, and each series field whose
name does not is written out as its field number plus its original raw
bytes; the output is the in-order concatenation of the per-field
emissions and the sink call carries the drop count. -/
theorem c2_protobuf_filter_correct (gz zl : Codec) (sink : SinkCall → Bool)
    (cfg : Config) (r : FilterRequest) (all : Bytes) (fields : List (Nat × PBValue))
    (hpre : cfg.MetricsPrefixFilter ≠ [])
    (hrd : getReaderFromRequest gz zl r = .ok all)
    (hp : messageFields all = .ok fields)
    (hwf : ∀ fv ∈ fields, fv.1 = metricSeries →
      (seriesKeep cfg.MetricsPrefixFilter fv.2).isSome) :
    MetricsProtobufFilter gz zl sink cfg r =
      ⟨.forward (getWriterOutput gz zl r
          ((fields.map (fieldEmit cfg.MetricsPrefixFilter)).flatten)),
        [⟨metricsFilteredCountName,
          (fields.countP (fieldDropped cfg.MetricsPrefixFilter) : Int), cfg.Tags, 1⟩]⟩ ∧
    (∀ fv ∈ fields, fv.1 = metricSeries → ∀ name, seriesName fv.2 = .ok name →
      (cfg.MetricsPrefixFilter.isPrefixOf name = true →
        fieldEmit cfg.MetricsPrefixFilter fv = [] ∧
        fieldDropped cfg.MetricsPrefixFilter fv = true) ∧
      (cfg.MetricsPrefixFilter.isPrefixOf name = false →
        fieldEmit cfg.MetricsPrefixFilter fv = psBytes fv.1 fv.2.bytes ∧
        fieldDropped cfg.MetricsPrefixFilter fv = false)) := by
  refine ⟨MetricsProtobufFilter_ok gz zl sink cfg r all fields hpre hrd hp hwf, ?_⟩
  intro fv _ hser name hn
  have hk : seriesKeep cfg.MetricsPrefixFilter fv.2 =
      some (!(cfg.MetricsPrefixFilter.isPrefixOf name)) := by
    simp [seriesKeep, hn]
  constructor
  · intro hpref
    constructor
    · simp [fieldEmit, hser, hk, hpref]
    · simp [fieldDropped, hser, hk, hpref]
  · intro hpref
    constructor
    · simp [fieldEmit, hser, hk, hpref]
    · simp [fieldDropped, hser, hk, hpref]

def sinkTrue : SinkCall → Bool := fun _ => true

def pbSeriesDrop : Bytes := [18, 8] ++ ascii "dropme.x"

def pbSeriesKeep : Bytes := [18, 4] ++ ascii "keep"

def pbBodyEx : Bytes := ([10, 10] ++ pbSeriesDrop) ++ ([10, 6] ++ pbSeriesKeep)

def pbCfgEx : Config := ⟨ascii "dropme", ["one"]⟩

def pbFieldsEx : List (Nat × PBValue) :=
  [(1, ⟨2, 0, pbSeriesDrop⟩), (1, ⟨2, 0, pbSeriesKeep⟩)]

/-- C2 witness: the spec's concrete scenario — two series sub-messages,
one named dropme.x, filter dropme: one field emitted verbatim, one drop
counted. -/
theorem c2_protobuf_filter_correct_witness :
    (MetricsProtobufFilter idCodec idCodec sinkTrue pbCfgEx ⟨[], pbBodyEx⟩ =
      ⟨.forward (getWriterOutput idCodec idCodec ⟨[], pbBodyEx⟩
          ((pbFieldsEx.map (fieldEmit pbCfgEx.MetricsPrefixFilter)).flatten)),
        [⟨metricsFilteredCountName,
          (pbFieldsEx.countP (fieldDropped pbCfgEx.MetricsPrefixFilter) : Int),
          pbCfgEx.Tags, 1⟩]⟩ ∧
    (∀ fv ∈ pbFieldsEx, fv.1 = metricSeries → ∀ name, seriesName fv.2 = .ok name →
      (pbCfgEx.MetricsPrefixFilter.isPrefixOf name = true →
        fieldEmit pbCfgEx.MetricsPrefixFilter fv = [] ∧
        fieldDropped pbCfgEx.MetricsPrefixFilter fv = true) ∧
      (pbCfgEx.MetricsPrefixFilter.isPrefixOf name = false →
        fieldEmit pbCfgEx.MetricsPrefixFilter fv = psBytes fv.1 fv.2.bytes ∧
        fieldDropped pbCfgEx.MetricsPrefixFilter fv = false))) ∧
    (pbFieldsEx.map (fieldEmit pbCfgEx.MetricsPrefixFilter)).flatten =
      [10, 6] ++ pbSeriesKeep ∧
    pbFieldsEx.countP (fieldDropped pbCfgEx.MetricsPrefixFilter) = 1 :=
  ⟨c2_protobuf_filter_correct idCodec idCodec sinkTrue pbCfgEx ⟨[], pbBodyEx⟩
      pbBodyEx pbFieldsEx (by decide) rfl rfl (by decide),
    rfl, rfl⟩

/-- C3 counterexample: a top-level varint field (field number 3, value 1,
wire bytes 0x18 0x01) is not copied byte-for-byte: the route re-emits it
through ProtoStream.Bytes as an empty length-delimited field 0x1a 0x00,
changing its wire type and losing its value. -/
theorem c3_counterexample :
    MetricsProtobufFilter idCodec idCodec sinkTrue ⟨ascii "dropme", ["one"]⟩
        ⟨[], [24, 1]⟩ =
      ⟨.forward [26, 0], [⟨metricsFilteredCountName, 0, ["one"], 1⟩]⟩ ∧
    ([26, 0] : Bytes) ≠ [24, 1] :=
  ⟨rfl, by decide⟩

/-- C3 amended: every top-level field whose number is not 1 is re-emitted
unconditionally and in the original field order, but always as a
length-delimited field carrying the parsed Value.Bytes — which preserves
the payload for length-delimited input fields and is an empty
length-delimited field for varint and fixed-width input fields, whose
original encoding is therefore not preserved byte-for-byte. -/
theorem c3_nonseries_reencoded (gz zl : Codec) (sink : SinkCall → Bool)
    (cfg : Config) (r : FilterRequest) (all : Bytes) (fields : List (Nat × PBValue))
    (hpre : cfg.MetricsPrefixFilter ≠ [])
    (hrd : getReaderFromRequest gz zl r = .ok all)
    (hp : messageFields all = .ok fields)
    (hwf : ∀ fv ∈ fields, fv.1 = metricSeries →
      (seriesKeep cfg.MetricsPrefixFilter fv.2).isSome) :
    MetricsProtobufFilter gz zl sink cfg r =
      ⟨.forward (getWriterOutput gz zl r
          ((fields.map (fieldEmit cfg.MetricsPrefixFilter)).flatten)),
        [⟨metricsFilteredCountName,
          (fields.countP (fieldDropped cfg.MetricsPrefixFilter) : Int), cfg.Tags, 1⟩]⟩ ∧
    (∀ fv ∈ fields, fv.1 ≠ metricSeries →
      fieldEmit cfg.MetricsPrefixFilter fv = psBytes fv.1 fv.2.bytes ∧
      fieldDropped cfg.MetricsPrefixFilter fv = false) ∧
    (∀ fv ∈ fields, fv.2.wireType ≠ 2 → fv.2.bytes = []) := by
  refine ⟨MetricsProtobufFilter_ok gz zl sink cfg r all fields hpre hrd hp hwf, ?_, ?_⟩
  · intro fv _ hser
    constructor
    · simp [fieldEmit, hser]
    · simp [fieldDropped, hser]
  · intro fv hm hwt
    rcases messageFields_wtInv fields all hp fv hm with h2 | h2
    · exact absurd h2 hwt
    · exact h2

def pbMixedBody : Bytes := [24, 5] ++ [34, 2, 170, 187]

def pbMixedFields : List (Nat × PBValue) := [(3, ⟨0, 5, []⟩), (4, ⟨2, 0, [170, 187]⟩)]

/-- C3 witness: a varint field number 3 and a length-delimited field
number 4 under filter p — both re-emitted in order as length-delimited
fields, the varint one as an empty field. -/
theorem c3_nonseries_reencoded_witness :
    (MetricsProtobufFilter idCodec idCodec sinkTrue ⟨ascii "p", []⟩ ⟨[], pbMixedBody⟩ =
      ⟨.forward (getWriterOutput idCodec idCodec ⟨[], pbMixedBody⟩
          ((pbMixedFields.map (fieldEmit (ascii "p"))).flatten)),
        [⟨metricsFilteredCountName,
          (pbMixedFields.countP (fieldDropped (ascii "p")) : Int), [], 1⟩]⟩ ∧
    (∀ fv ∈ pbMixedFields, fv.1 ≠ metricSeries →
      fieldEmit (ascii "p") fv = psBytes fv.1 fv.2.bytes ∧
      fieldDropped (ascii "p") fv = false) ∧
    (∀ fv ∈ pbMixedFields, fv.2.wireType ≠ 2 → fv.2.bytes = [])) ∧
    (pbMixedFields.map (fieldEmit (ascii "p"))).flatten = [26, 0] ++ [34, 2, 170, 187] :=
  ⟨c3_nonseries_reencoded idCodec idCodec sinkTrue ⟨ascii "p", []⟩ ⟨[], pbMixedBody⟩
      pbMixedBody pbMixedFields (by decide) rfl rfl (by decide),
    rfl⟩

/-- C10: whenever the filter is non-empty, a series field whose packed
message yields the empty metric name — because it contains no field
numbered 2, or because that field holds the empty string — is kept in the
output as its field number plus its raw bytes and is never counted as
dropped, since the empty name cannot start with a non-empty filter. -/
theorem c10_empty_name_retained (gz zl : Codec) (sink : SinkCall → Bool)
    (cfg : Config) (r : FilterRequest) (all : Bytes) (fields : List (Nat × PBValue))
    (hpre : cfg.MetricsPrefixFilter ≠ [])
    (hrd : getReaderFromRequest gz zl r = .ok all)
    (hp : messageFields all = .ok fields)
    (hwf : ∀ fv ∈ fields, fv.1 = metricSeries →
      (seriesKeep cfg.MetricsPrefixFilter fv.2).isSome) :
    MetricsProtobufFilter gz zl sink cfg r =
      ⟨.forward (getWriterOutput gz zl r
          ((fields.map (fieldEmit cfg.MetricsPrefixFilter)).flatten)),
        [⟨metricsFilteredCountName,
          (fields.countP (fieldDropped cfg.MetricsPrefixFilter) : Int), cfg.Tags, 1⟩]⟩ ∧
    (∀ fv ∈ fields, fv.1 = metricSeries → fv.2.wireType = 2 →
      extractMetricName fv.2.bytes = .ok [] →
      fieldEmit cfg.MetricsPrefixFilter fv = psBytes fv.1 fv.2.bytes ∧
      fieldDropped cfg.MetricsPrefixFilter fv = false) := by
  refine ⟨MetricsProtobufFilter_ok gz zl sink cfg r all fields hpre hrd hp hwf, ?_⟩
  intro fv _ hser hwt hname
  have hab : asBytesSafe fv.2 = .ok fv.2.bytes := by
    simp [asBytesSafe, hwt]
  have hn : seriesName fv.2 = .ok [] := by
    simp [seriesName, hab, hname]
  have hnopre : cfg.MetricsPrefixFilter.isPrefixOf ([] : Bytes) = false := by
    match hc : cfg.MetricsPrefixFilter with
    | [] => exact absurd hc hpre
    | a :: tl => rfl
  have hk : seriesKeep cfg.MetricsPrefixFilter fv.2 = some true := by
    simp [seriesKeep, hn, hnopre]
  constructor
  · simp [fieldEmit, hser, hk]
  · simp [fieldDropped, hser, hk]

def pbNoNameBody : Bytes := [10, 2, 24, 7]

def pbNoNameFields : List (Nat × PBValue) := [(1, ⟨2, 0, [24, 7]⟩)]

/-- C10 witness: one series field whose packed message holds only a
varint field numbered 3, so no metric name: the field is forwarded
byte-identically and nothing is dropped. -/
theorem c10_empty_name_retained_witness :
    (MetricsProtobufFilter idCodec idCodec sinkTrue ⟨ascii "x", []⟩ ⟨[], pbNoNameBody⟩ =
      ⟨.forward (getWriterOutput idCodec idCodec ⟨[], pbNoNameBody⟩
          ((pbNoNameFields.map (fieldEmit (ascii "x"))).flatten)),
        [⟨metricsFilteredCountName,
          (pbNoNameFields.countP (fieldDropped (ascii "x")) : Int), [], 1⟩]⟩ ∧
    (∀ fv ∈ pbNoNameFields, fv.1 = metricSeries → fv.2.wireType = 2 →
      extractMetricName fv.2.bytes = .ok [] →
      fieldEmit (ascii "x") fv = psBytes fv.1 fv.2.bytes ∧
      fieldDropped (ascii "x") fv = false)) ∧
    (pbNoNameFields.map (fieldEmit (ascii "x"))).flatten = pbNoNameBody ∧
    pbNoNameFields.countP (fieldDropped (ascii "x")) = 0 :=
  ⟨c10_empty_name_retained idCodec idCodec sinkTrue ⟨ascii "x", []⟩ ⟨[], pbNoNameBody⟩
      pbNoNameBody pbNoNameFields (by decide) rfl rfl (by decide),
    rfl, rfl⟩

/-- C5: with an empty configured filter both filtering routes degenerate
to passthrough: whatever the body and its declared encoding, and whatever
the codecs would do, the handler forwards the original body bytes
untouched and performs no decompression, parsing or re-encoding — and
makes no sink call. -/
theorem c5_empty_filter_passthrough (gz zl : Codec) (sink : SinkCall → Bool)
    (cfg : Config) (r : FilterRequest) (h : cfg.MetricsPrefixFilter = []) :
    MetricsFilter gz zl sink cfg r = ⟨.forward r.body, []⟩ ∧
    MetricsProtobufFilter gz zl sink cfg r = ⟨.forward r.body, []⟩ := by
  constructor
  · unfold MetricsFilter
    rw [if_pos h]
  · unfold MetricsProtobufFilter
    rw [if_pos h]

/-- A codec that always fails to decode, standing in for a compressed
stream that does not match its declared encoding. -/
def failCodec : Codec := ⟨fun _ => .error "bad stream", fun bs => bs⟩

/-- C5 witness: empty filter, a gzip Content-Encoding header, a body no
decoder could decode, and codecs that reject everything: both routes
still forward the body byte-for-byte without touching it. -/
theorem c5_empty_filter_passthrough_witness :
    MetricsFilter failCodec failCodec sinkTrue ⟨[], []⟩ ⟨ascii "gzip", ascii "junk"⟩ =
      ⟨.forward (ascii "junk"), []⟩ ∧
    MetricsProtobufFilter failCodec failCodec sinkTrue ⟨[], []⟩ ⟨ascii "gzip", ascii "junk"⟩ =
      ⟨.forward (ascii "junk"), []⟩ :=
  c5_empty_filter_passthrough failCodec failCodec sinkTrue ⟨[], []⟩
    ⟨ascii "gzip", ascii "junk"⟩ rfl

/-- C6: with a non-empty filter, when the JSON route's body decode fails
the caller gets 500 with the decode error text as the body, the sink is
not called, and the backend is never contacted (the handler result is a
direct response, never a forward). -/
theorem c6_malformed_json_500 (gz zl : Codec) (sink : SinkCall → Bool)
    (cfg : Config) (r : FilterRequest) (bs : Bytes) (e : String)
    (hpre : cfg.MetricsPrefixFilter ≠ [])
    (hrd : getReaderFromRequest gz zl r = .ok bs)
    (hdec : decodeMetricsPayloadBytes bs = .error e) :
    MetricsFilter gz zl sink cfg r = ⟨.respond 500 e, []⟩ ∧
    ∀ b, (MetricsFilter gz zl sink cfg r).outcome ≠ .forward b := by
  have hmain : MetricsFilter gz zl sink cfg r = ⟨.respond 500 e, []⟩ := by
    unfold MetricsFilter
    rw [if_neg hpre]
    simp only [hrd, hdec]
  refine ⟨hmain, ?_⟩
  intro b
  rw [hmain]
  simp

/-- C6 witness: the truncated body consisting of one opening brace is
malformed JSON; the route answers 500 with the decode error and does not
forward. -/
theorem c6_malformed_json_500_witness :
    MetricsFilter idCodec idCodec sinkTrue ⟨ascii "some.metric", []⟩ ⟨[], ascii "\x7b"⟩ =
      ⟨.respond 500 "invalid character looking for object key", []⟩ ∧
    ∀ b, (MetricsFilter idCodec idCodec sinkTrue ⟨ascii "some.metric", []⟩
        ⟨[], ascii "\x7b"⟩).outcome ≠ .forward b :=
  c6_malformed_json_500 idCodec idCodec sinkTrue ⟨ascii "some.metric", []⟩
    ⟨[], ascii "\x7b"⟩ (ascii "\x7b") "invalid character looking for object key"
    (by decide) rfl rfl

/-- C9: on every successfully filtered request (non-empty filter and a
successful decode) each route makes exactly one sink call, with the fixed
counter name, the request's drop count as the value, the configured tags
and sample rate 1; and the handler result is the same whatever the sink
returns, so a sink failure never fails the request. -/
theorem c9_sink_call (gz zl : Codec) (sink : SinkCall → Bool) (cfg : Config)
    (r : FilterRequest) (hpre : cfg.MetricsPrefixFilter ≠ []) :
    (∀ bs payload, getReaderFromRequest gz zl r = .ok bs →
      decodeMetricsPayloadBytes bs = .ok payload →
      (MetricsFilter gz zl sink cfg r).sinkCalls =
        [⟨metricsFilteredCountName,
          (payload.series.length : Int) -
            ((payload.series.filter
              (fun s => !(cfg.MetricsPrefixFilter.isPrefixOf s.metric))).length : Int),
          cfg.Tags, 1⟩]) ∧
    (∀ bs output dropCount, getReaderFromRequest gz zl r = .ok bs →
      protoFilterBody cfg.MetricsPrefixFilter bs = .ok (output, dropCount) →
      (MetricsProtobufFilter gz zl sink cfg r).sinkCalls =
        [⟨metricsFilteredCountName, dropCount, cfg.Tags, 1⟩]) ∧
    (∀ sink2, MetricsFilter gz zl sink cfg r = MetricsFilter gz zl sink2 cfg r) ∧
    (∀ sink2, MetricsProtobufFilter gz zl sink cfg r =
      MetricsProtobufFilter gz zl sink2 cfg r) := by
  refine ⟨?_, ?_, fun sink2 => rfl, fun sink2 => rfl⟩
  · intro bs payload hrd hdec
    unfold MetricsFilter
    rw [if_neg hpre]
    simp only [hrd, hdec, logDropCount]
  · intro bs output dropCount hrd hbody
    unfold MetricsProtobufFilter
    rw [if_neg hpre]
    simp only [hrd, hbody, logDropCount]

def sinkFalse : SinkCall → Bool := fun _ => false

def jsonBodyEx : Bytes :=
  ascii "\x7b\"series\":[\x7b\"metric\":\"metric.one\"\x7d,\x7b\"metric\":\"some.metric.load\"\x7d,\x7b\"metric\":\"metric.two\"\x7d]\x7d"

def payloadEx : MetricsPayload :=
  ⟨[⟨ascii "metric.one", none, none, none, none, none⟩,
    ⟨ascii "some.metric.load", none, none, none, none, none⟩,
    ⟨ascii "metric.two", none, none, none, none, none⟩]⟩

def cfgEx : Config := ⟨ascii "some.metric", ["one", "two", "three"]⟩

/-- C9 witness: the spec's concrete payload and filter on both routes —
one sink call carrying drop count 1 and the configured tags on the JSON
route, drop count 1 on the binary route, and identical handler results
under a sink that reports failure. -/
theorem c9_sink_call_witness :
    (MetricsFilter idCodec idCodec sinkTrue cfgEx ⟨[], jsonBodyEx⟩).sinkCalls =
      [⟨metricsFilteredCountName,
        (payloadEx.series.length : Int) -
          ((payloadEx.series.filter
            (fun s => !(cfgEx.MetricsPrefixFilter.isPrefixOf s.metric))).length : Int),
        cfgEx.Tags, 1⟩] ∧
    (MetricsProtobufFilter idCodec idCodec sinkTrue pbCfgEx ⟨[], pbBodyEx⟩).sinkCalls =
      [⟨metricsFilteredCountName, 1, pbCfgEx.Tags, 1⟩] ∧
    MetricsFilter idCodec idCodec sinkTrue cfgEx ⟨[], jsonBodyEx⟩ =
      MetricsFilter idCodec idCodec sinkFalse cfgEx ⟨[], jsonBodyEx⟩ ∧
    MetricsProtobufFilter idCodec idCodec sinkTrue pbCfgEx ⟨[], pbBodyEx⟩ =
      MetricsProtobufFilter idCodec idCodec sinkFalse pbCfgEx ⟨[], pbBodyEx⟩ :=
  ⟨(c9_sink_call idCodec idCodec sinkTrue cfgEx ⟨[], jsonBodyEx⟩ (by decide)).1
      jsonBodyEx payloadEx rfl rfl,
    (c9_sink_call idCodec idCodec sinkTrue pbCfgEx ⟨[], pbBodyEx⟩ (by decide)).2.1
      pbBodyEx ([10, 6] ++ pbSeriesKeep) 1 rfl (by rfl),
    (c9_sink_call idCodec idCodec sinkTrue cfgEx ⟨[], jsonBodyEx⟩ (by decide)).2.2.1
      sinkFalse,
    (c9_sink_call idCodec idCodec sinkTrue pbCfgEx ⟨[], pbBodyEx⟩ (by decide)).2.2.2
      sinkFalse⟩

/-- C1: for every decoded JSON series payload and non-empty filter, the
JSON route forwards the re-encoded payload whose series list retains
exactly the records whose metric does not start with the filter, in their
original relative order (a sublist of the input), and the sink call
carries original count minus retained count — which equals the number of
records whose metric starts with the filter. -/
theorem c1_json_filter_correct (gz zl : Codec) (sink : SinkCall → Bool)
    (cfg : Config) (r : FilterRequest) (bs : Bytes) (payload : MetricsPayload)
    (hpre : cfg.MetricsPrefixFilter ≠ [])
    (hrd : getReaderFromRequest gz zl r = .ok bs)
    (hdec : decodeMetricsPayloadBytes bs = .ok payload) :
    ∃ retained : List Series,
      MetricsFilter gz zl sink cfg r =
        ⟨.forward (getWriterOutput gz zl r
            (jsonSerialize (encodeMetricsPayload ⟨retained⟩))),
          [⟨metricsFilteredCountName,
            (payload.series.length : Int) - (retained.length : Int), cfg.Tags, 1⟩]⟩ ∧
      retained.Sublist payload.series ∧
      (∀ s, s ∈ retained ↔ s ∈ payload.series ∧
        cfg.MetricsPrefixFilter.isPrefixOf s.metric = false) ∧
      (payload.series.length : Int) - (retained.length : Int) =
        (payload.series.countP
          (fun s => cfg.MetricsPrefixFilter.isPrefixOf s.metric) : Int) := by
  refine ⟨payload.series.filter
    (fun s => !(cfg.MetricsPrefixFilter.isPrefixOf s.metric)), ?_, ?_, ?_, ?_⟩
  · unfold MetricsFilter
    rw [if_neg hpre]
    simp only [hrd, hdec, logDropCount]
  · exact List.filter_sublist _
  · intro s
    rw [List.mem_filter]
    simp
  · have hsplit := List.length_eq_countP_add_countP
      (fun s => cfg.MetricsPrefixFilter.isPrefixOf s.metric) payload.series
    simp only [List.countP_eq_length_filter, decide_not, Bool.decide_eq_true] at hsplit
    rw [List.countP_eq_length_filter]
    omega

/-- C1 witness: the spec's three-record payload under filter some.metric:
the two metric.* records are retained in order, one record is dropped,
and the forwarded body is the re-encoded two-record payload. -/
theorem c1_json_filter_correct_witness :
    (∃ retained : List Series,
      MetricsFilter idCodec idCodec sinkTrue cfgEx ⟨[], jsonBodyEx⟩ =
        ⟨.forward (getWriterOutput idCodec idCodec ⟨[], jsonBodyEx⟩
            (jsonSerialize (encodeMetricsPayload ⟨retained⟩))),
          [⟨metricsFilteredCountName,
            (payloadEx.series.length : Int) - (retained.length : Int), cfgEx.Tags, 1⟩]⟩ ∧
      retained.Sublist payloadEx.series ∧
      (∀ s, s ∈ retained ↔ s ∈ payloadEx.series ∧
        cfgEx.MetricsPrefixFilter.isPrefixOf s.metric = false) ∧
      (payloadEx.series.length : Int) - (retained.length : Int) =
        (payloadEx.series.countP
          (fun s => cfgEx.MetricsPrefixFilter.isPrefixOf s.metric) : Int)) ∧
    (MetricsFilter idCodec idCodec sinkTrue cfgEx ⟨[], jsonBodyEx⟩).outcome =
      .forward (ascii
        "\x7b\"series\":[\x7b\"metric\":\"metric.one\"\x7d,\x7b\"metric\":\"metric.two\"\x7d]\x7d") :=
  ⟨c1_json_filter_correct idCodec idCodec sinkTrue cfgEx ⟨[], jsonBodyEx⟩
      jsonBodyEx payloadEx (by decide) rfl rfl,
    rfl⟩

/-! ## Header copying and proxy outcome -/

theorem foldl_headerAdd (src : Headers) (l : List (Bytes × List Bytes)) :
    ∀ (acc : Headers),
      (∀ e ∈ l, acc.entries.any (fun a => a.1 = e.1) = false) →
      (l.map Prod.fst).Nodup →
      l.foldl (fun acc2 e => headerAdd acc2 e.1 (headerGet src e.1)) acc =
        ⟨acc.entries ++ l.map (fun e => (e.1, [headerGet src e.1]))⟩ := by
  induction l with
  | nil =>
    intro acc _ _
    simp
  | cons hd tl ih =>
    intro acc hdisj hnd
    simp only [List.foldl_cons]
    have hAdd : headerAdd acc hd.1 (headerGet src hd.1) =
        ⟨acc.entries ++ [(hd.1, [headerGet src hd.1])]⟩ := by
      unfold headerAdd
      rw [if_neg]
      rw [hdisj hd (List.mem_cons_self _ _)]
      simp
    rw [hAdd]
    rw [ih ⟨acc.entries ++ [(hd.1, [headerGet src hd.1])]⟩ ?_ ?_]
    · simp
    · intro e he
      simp only [List.any_append, List.any_cons, List.any_nil, Bool.or_false,
        Bool.or_eq_false_iff]
      refine ⟨hdisj e (List.mem_cons_of_mem _ he), ?_⟩
      have hne : hd.1 ≠ e.1 := by
        simp only [List.map_cons, List.nodup_cons] at hnd
        intro hc
        exact hnd.1 (hc ▸ List.mem_map_of_mem Prod.fst he)
      simp [hne]
    · simp only [List.map_cons, List.nodup_cons] at hnd
      exact hnd.2

/-- The header-copy loop over a header map with distinct names produces,
for every inbound name, exactly one entry holding the name's first
value. -/
theorem copyHeaders_eq (src : Headers)
    (hnd : (src.entries.map Prod.fst).Nodup) :
    copyHeaders src = ⟨src.entries.map (fun e => (e.1, [headerGet src e.1]))⟩ := by
  unfold copyHeaders
  rw [foldl_headerAdd src src.entries ⟨[]⟩ (fun e _ => rfl) hnd]
  rfl

theorem find?_map_keyed (g : Bytes × List Bytes → Bytes × List Bytes)
    (hg : ∀ e, (g e).1 = e.1) (k : Bytes) :
    ∀ l : List (Bytes × List Bytes),
      (l.map g).find? (fun e => e.1 = k) = (l.find? (fun e => e.1 = k)).map g := by
  intro l
  induction l with
  | nil => rfl
  | cons hd tl ih =>
    simp only [List.map_cons]
    by_cases hk : hd.1 = k
    · rw [List.find?_cons_of_pos _ (by simp [hg hd, hk]),
        List.find?_cons_of_pos _ (by simpa using hk)]
      rfl
    · rw [List.find?_cons_of_neg _ (by simp [hg hd, hk]),
        List.find?_cons_of_neg _ (by simpa using hk), ih]

theorem headerGet_copyHeaders (src : Headers)
    (hnd : (src.entries.map Prod.fst).Nodup) (k : Bytes) :
    headerGet (copyHeaders src) k = headerGet src k := by
  rw [copyHeaders_eq src hnd]
  have hfind := find?_map_keyed (fun e => (e.1, [headerGet src e.1]))
    (fun _ => rfl) k src.entries
  show ((((src.entries.map (fun e => (e.1, [headerGet src e.1]))).find?
    (fun e => e.1 = k)).map (fun e => e.2.headD [])).getD []) = headerGet src k
  rw [hfind]
  cases hf : src.entries.find? (fun e => decide (e.1 = k)) with
  | none =>
    unfold headerGet
    rw [hf]
    rfl
  | some e =>
    have hk : e.1 = k := by
      have := List.find?_some hf
      simpa using this
    simp only [Option.map_some', Option.getD_some, List.headD_cons]
    rw [hk]

/-- C4 counterexample: an inbound header name with two values loses its
second value on the outbound request — the loop adds only Header.Get's
first value per name, so duplicates are not preserved. -/
theorem c4_counterexample :
    (outboundRequest ⟨⟨[]⟩⟩ ⟨⟨[(ascii "X-Dup", [ascii "a", ascii "b"])]⟩⟩).headers =
      ⟨[(ascii "X-Dup", [ascii "a"])]⟩ ∧
    (outboundRequest ⟨⟨[]⟩⟩ ⟨⟨[(ascii "X-Dup", [ascii "a", ascii "b"])]⟩⟩).headers ≠
      ⟨[(ascii "X-Dup", [ascii "a", ascii "b"])]⟩ :=
  ⟨rfl, by decide⟩

/-- C4 amended: every inbound header name reaches the outbound request,
but only with its first value — a name with several values has the rest
dropped, not preserved; Header.Get observes the same first value on both
sides; and on a successful upstream round trip the response carries the
upstream status code unchanged, with the response headers copied back the
same first-value-only way. -/
theorem c4_header_forwarding (base : OutboundRequest) (r : InboundRequest)
    (hnd : (r.headers.entries.map Prod.fst).Nodup) :
    (outboundRequest base r).headers.entries =
      r.headers.entries.map (fun e => (e.1, [headerGet r.headers e.1])) ∧
    (∀ k, headerGet (outboundRequest base r).headers k = headerGet r.headers k) ∧
    (∀ send resp, send (outboundRequest base r) = .ok resp →
      proxyRequest (.ok base) send r =
        .relay resp.status (copyHeaders resp.headers) resp.body) := by
  refine ⟨?_, ?_, ?_⟩
  · show (copyHeaders r.headers).entries = _
    rw [copyHeaders_eq r.headers hnd]
  · intro k
    exact headerGet_copyHeaders r.headers hnd k
  · intro send resp hsend
    unfold proxyRequest
    simp only [hsend]

/-- C4 witness: two inbound names, one with two values; the outbound map
holds each name with exactly its first value, and a 207 upstream response
is relayed as 207. -/
theorem c4_header_forwarding_witness :
    ((outboundRequest ⟨⟨[]⟩⟩
        ⟨⟨[(ascii "A", [ascii "1", ascii "2"]), (ascii "B", [ascii "3"])]⟩⟩).headers.entries =
      ([(ascii "A", [ascii "1", ascii "2"]), (ascii "B", [ascii "3"])] :
        List (Bytes × List Bytes)).map
        (fun e => (e.1, [headerGet ⟨[(ascii "A", [ascii "1", ascii "2"]),
          (ascii "B", [ascii "3"])]⟩ e.1])) ∧
    (∀ k, headerGet (outboundRequest ⟨⟨[]⟩⟩
        ⟨⟨[(ascii "A", [ascii "1", ascii "2"]), (ascii "B", [ascii "3"])]⟩⟩).headers k =
      headerGet ⟨[(ascii "A", [ascii "1", ascii "2"]), (ascii "B", [ascii "3"])]⟩ k) ∧
    (∀ send resp, send (outboundRequest ⟨⟨[]⟩⟩
        ⟨⟨[(ascii "A", [ascii "1", ascii "2"]), (ascii "B", [ascii "3"])]⟩⟩) = .ok resp →
      proxyRequest (.ok ⟨⟨[]⟩⟩) send
          ⟨⟨[(ascii "A", [ascii "1", ascii "2"]), (ascii "B", [ascii "3"])]⟩⟩ =
        .relay resp.status (copyHeaders resp.headers) resp.body)) ∧
    (outboundRequest ⟨⟨[]⟩⟩
        ⟨⟨[(ascii "A", [ascii "1", ascii "2"]), (ascii "B", [ascii "3"])]⟩⟩).headers =
      ⟨[(ascii "A", [ascii "1"]), (ascii "B", [ascii "3"])]⟩ ∧
    proxyRequest (.ok ⟨⟨[]⟩⟩)
        (fun _ => .ok ⟨207, ⟨[]⟩, []⟩)
        ⟨⟨[(ascii "A", [ascii "1", ascii "2"]), (ascii "B", [ascii "3"])]⟩⟩ =
      .relay 207 ⟨[]⟩ [] :=
  ⟨c4_header_forwarding ⟨⟨[]⟩⟩
      ⟨⟨[(ascii "A", [ascii "1", ascii "2"]), (ascii "B", [ascii "3"])]⟩⟩ (by decide),
    rfl, rfl⟩

/-- C7: when outbound request construction fails, proxyRequest does not
answer 500 with the error message — the Go code assigns to a field of the
still-nil request on the line before the error check, so the handler
panics on a nil pointer dereference and the 500 branch is dead code. -/
theorem c7_construct_failure_panics (e : String)
    (send : OutboundRequest → Except String UpstreamResponse) (r : InboundRequest) :
    proxyRequest (.error e) send r = .panicked ∧
    ∀ s : String, proxyRequest (.error e) send r ≠ .respond 500 := by
  refine ⟨rfl, ?_⟩
  intro _ hc
  cases hc

/-! ## JSON record round-trip -/

/-- No decoded optional field ever holds an explicit JSON null: an absent
key and a null value both leave the Go pointer unset. -/
theorem optField_ne_null (fields : List (Bytes × Json)) (k : Bytes) :
    optField fields k ≠ some Json.null := by
  intro h
  unfold optField at h
  cases hc : objLookupList fields k with
  | none => rw [hc] at h; cases h
  | some v =>
    rw [hc] at h
    cases v <;> simp at h

/-- The records the decoder produces: no stored explicit null. -/
def SeriesWF (s : Series) : Prop :=
  s.host ≠ some Json.null ∧ s.interval ≠ some Json.null ∧
    s.points ≠ some Json.null ∧ s.tags ≠ some Json.null ∧ s.stype ≠ some Json.null

theorem decodeSeriesElem_WF (j : Json) (s : Series)
    (h : decodeSeriesElem j = .ok s) : SeriesWF s := by
  cases j with
  | obj fields =>
    unfold decodeSeriesElem at h
    dsimp only at h
    cases hm : objLookupList fields (ascii "metric") with
    | none => rw [hm] at h; cases h
    | some v =>
      rw [hm] at h
      cases v with
      | str m =>
        rw [Except.ok.injEq] at h
        subst h
        exact ⟨optField_ne_null _ _, optField_ne_null _ _, optField_ne_null _ _,
          optField_ne_null _ _, optField_ne_null _ _⟩
      | null => cases h
      | bool b => cases h
      | num l => cases h
      | arr xs => cases h
      | obj fs => cases h
  | null => cases h
  | bool b => cases h
  | num l => cases h
  | str s2 => cases h
  | arr xs => cases h

theorem decodeSeriesList_WF : ∀ (elems : List Json) (ss : List Series),
    decodeSeriesList elems = .ok ss → ∀ s ∈ ss, SeriesWF s := by
  intro elems
  induction elems with
  | nil =>
    intro ss h s hm
    unfold decodeSeriesList at h
    rw [Except.ok.injEq] at h
    subst h
    cases hm
  | cons j tl ih =>
    intro ss h s hm
    unfold decodeSeriesList at h
    cases hd : decodeSeriesElem j with
    | error e => rw [hd] at h; cases h
    | ok s1 =>
      rw [hd] at h
      cases htl : decodeSeriesList tl with
      | error e => rw [htl] at h; cases h
      | ok ss1 =>
        rw [htl, Except.ok.injEq] at h
        subst h
        cases hm with
        | head => exact decodeSeriesElem_WF j s hd
        | tail _ hm2 => exact ih ss1 htl s hm2

theorem optField_some (fields : List (Bytes × Json)) (k : Bytes) (v : Json)
    (hl : objLookupList fields k = some v) (hv : v ≠ Json.null) :
    optField fields k = some v := by
  unfold optField
  rw [hl]
  cases v <;> simp_all

/-- Binding an object whose lookups are known. -/
theorem decodeSeriesElem_obj (L : List (Bytes × Json)) (m : Bytes)
    (f1 f2 f3 f4 f5 : Option Json)
    (hM : objLookupList L (ascii "metric") = some (.str m))
    (h1 : optField L (ascii "host") = f1) (h2 : optField L (ascii "interval") = f2)
    (h3 : optField L (ascii "points") = f3) (h4 : optField L (ascii "tags") = f4)
    (h5 : optField L (ascii "type") = f5) :
    decodeSeriesElem (.obj L) = .ok ⟨m, f1, f2, f3, f4, f5⟩ := by
  unfold decodeSeriesElem
  simp only [hM, h1, h2, h3, h4, h5]

/-- Re-encoding a well-formed record and binding it again restores the
record: every schema field that is set round-trips, and nothing else is
emitted. -/
theorem decodeSeriesElem_encodeSeries (s : Series) (hWF : SeriesWF s) :
    decodeSeriesElem (encodeSeries s) = .ok s := by
  obtain ⟨m, f1, f2, f3, f4, f5⟩ := s
  obtain ⟨h1, h2, h3, h4, h5⟩ := hWF
  cases f1 <;> cases f2 <;> cases f3 <;> cases f4 <;> cases f5 <;>
    refine decodeSeriesElem_obj _ m _ _ _ _ _ rfl ?_ ?_ ?_ ?_ ?_ <;>
    first
      | rfl
      | (refine optField_some _ _ _ rfl ?_
         intro hc
         subst hc
         simp_all)

theorem decodeSeriesList_encode : ∀ (ss : List Series),
    (∀ s ∈ ss, SeriesWF s) →
    decodeSeriesList (ss.map encodeSeries) = .ok ss := by
  intro ss
  induction ss with
  | nil => intro _; rfl
  | cons s tl ih =>
    intro hWF
    simp only [List.map_cons, decodeSeriesList,
      decodeSeriesElem_encodeSeries s (hWF s (List.mem_cons_self _ _)),
      ih (fun s2 hm => hWF s2 (List.mem_cons_of_mem _ hm))]

/-- C8 amended: a decoded payload re-encodes to a JSON value that decodes
back to exactly the same records in the same order — the schema fields
are preserved on round-trip.  Keys outside the schema never survive the
first decode (see the counterexample), so the round-trip preserves
semantic content only up to dropping unknown fields. -/
theorem c8_roundtrip_drops_unknown_fields (j : Json) (p : MetricsPayload)
    (h : decodeMetricsPayload j = .ok p) :
    decodeMetricsPayload (encodeMetricsPayload p) = .ok p := by
  have hWF : ∀ s ∈ p.series, SeriesWF s := by
    cases j with
    | obj fields =>
      unfold decodeMetricsPayload at h
      dsimp only at h
      cases hl : objLookupList fields (ascii "series") with
      | none => rw [hl] at h; cases h
      | some v =>
        rw [hl] at h
        cases v with
        | arr elems =>
          dsimp only at h
          cases hd : decodeSeriesList elems with
          | error e => rw [hd] at h; cases h
          | ok ss =>
            rw [hd, Except.ok.injEq] at h
            subst h
            exact decodeSeriesList_WF elems ss hd
        | null => cases h
        | bool b => cases h
        | num l => cases h
        | str s2 => cases h
        | obj fs => cases h
    | null => cases h
    | bool b => cases h
    | num l => cases h
    | str s2 => cases h
    | arr xs => cases h
  unfold encodeMetricsPayload decodeMetricsPayload
  simp only [show objLookupList [(ascii "series", Json.arr (p.series.map encodeSeries))]
      (ascii "series") = some (Json.arr (p.series.map encodeSeries)) from rfl,
    decodeSeriesList_encode p.series hWF]

def jC8 : Json :=
  .obj [(ascii "series", .arr [.obj [(ascii "metric", .str (ascii "m")),
    (ascii "extra", .num (ascii "5"))]])]

/-- C8 counterexample: a series record carrying a key outside the schema
("extra") decodes successfully, but the re-encoded record no longer
carries that key: fields unknown to the filter are dropped, not preserved
as an opaque blob. -/
theorem c8_counterexample :
    decodeMetricsPayload jC8 =
      .ok ⟨[⟨ascii "m", none, none, none, none, none⟩]⟩ ∧
    encodeMetricsPayload ⟨[⟨ascii "m", none, none, none, none, none⟩]⟩ =
      .obj [(ascii "series", .arr [.obj [(ascii "metric", .str (ascii "m"))]])] ∧
    objLookup (.obj [(ascii "metric", .str (ascii "m")),
      (ascii "extra", .num (ascii "5"))]) (ascii "extra") =
      some (.num (ascii "5")) ∧
    objLookup (.obj [(ascii "metric", .str (ascii "m"))]) (ascii "extra") = none :=
  ⟨rfl, rfl, rfl, rfl⟩

/-- C8 witness: the decoded one-record payload of the counterexample
object re-encodes and decodes back to itself. -/
theorem c8_roundtrip_drops_unknown_fields_witness :
    decodeMetricsPayload (encodeMetricsPayload
      ⟨[⟨ascii "m", none, none, none, none, none⟩]⟩) =
      .ok ⟨[⟨ascii "m", none, none, none, none, none⟩]⟩ :=
  c8_roundtrip_drops_unknown_fields jC8
    ⟨[⟨ascii "m", none, none, none, none, none⟩]⟩ rfl

end ProxyFilter
